import Mathlib

/-!
# Verification of the `pg-query-builder.js` query builder

A shallow embedding of `src/pg-query-builder.js` (the Supabase-compatible
PostgreSQL query builder).  JavaScript values bound as SQL parameters are
modelled by `JVal`; a JS object (such as a row returned by the driver, or a
row passed to `insert`) is modelled as an association list `Row` whose keys
are unique (JS objects cannot hold two entries with the same key).  The
database driver (`pg.Pool#query`) is modelled as a function from an SQL text
and a positional-parameter list to either a row list or a thrown error
(`Except`); a rejected promise of the driver is the `Except.error` case.
-/

set_option autoImplicit false

namespace PgQB

/-- A JavaScript value, as far as the builder inspects one:  `null`,
`undefined`, booleans, numbers (modelled as integers), strings, arrays and
plain objects. -/
inductive JVal where
  | jnull
  | undef
  | bool (b : Bool)
  | num (n : Int)
  | str (s : String)
  | arr (elems : List JVal)
  | obj (fields : List (String × JVal))

/-- A JS object used as a row: an ordered association list of fields. -/
abbrev Row := List (String × JVal)

/-- `row[k]` — the value at key `k`, `undefined` when absent. -/
def getKey : Row → String → JVal
  | [], _ => .undef
  | (k', v) :: rest, k => if k' = k then v else getKey rest k

/-- `delete row[k]` — removes the entry with key `k`. -/
def delKey : Row → String → Row
  | [], _ => []
  | (k', v) :: rest, k => if k' = k then delKey rest k else (k', v) :: delKey rest k

/-- `k in row` — whether the object has an entry with key `k`. -/
def hasKey : Row → String → Bool
  | [], _ => false
  | (k', _) :: rest, k => if k' = k then true else hasKey rest k

/-- Replace the value stored at key `k` (position preserved). -/
def replaceKey : Row → String → JVal → Row
  | [], _, _ => []
  | (k', v') :: rest, k, v =>
    if k' = k then (k, v) :: replaceKey rest k v else (k', v') :: replaceKey rest k v

/-- `row[k] = v` — JS assignment: overwrites in place when the key exists,
otherwise appends the new entry at the end. -/
def setKey (r : Row) (k : String) (v : JVal) : Row :=
  if hasKey r k then replaceKey r k v else r ++ [(k, v)]

/-- `Object.keys(row)` — the keys in entry order. -/
def objKeys (r : Row) : List String := r.map Prod.fst

/-- `typeof v === 'object' && v !== null` for array/object values (in JS an
array also has `typeof` `'object'`). -/
def isObjNonNull : JVal → Bool
  | .arr _ => true
  | .obj _ => true
  | _ => false

/-- `v === null`. -/
def isNullJ : JVal → Bool
  | .jnull => true
  | _ => false

/-! ## Character-level string utilities

Structural-recursion models of the JS string operations the builder uses
(`split`, `trim`, the two regex literals), so every definition evaluates in
the kernel. -/

/-- The whitespace class `\s` (restricted to the ASCII whitespace that can
realistically occur in a column string). -/
def isSpaceJs (c : Char) : Bool :=
  c = ' ' ∨ c = '\t' ∨ c = '\n' ∨ c = '\r'

/-- The word class `\w = [A-Za-z0-9_]`. -/
def isWordJs (c : Char) : Bool :=
  ('a' ≤ c ∧ c ≤ 'z') ∨ ('A' ≤ c ∧ c ≤ 'Z') ∨ ('0' ≤ c ∧ c ≤ '9') ∨ c = '_'

/-- `String.prototype.trim` on a character list. -/
def trimChars (s : List Char) : List Char :=
  ((s.dropWhile isSpaceJs).reverse.dropWhile isSpaceJs).reverse

/-- `s.split(sep)` for a one-character separator `sep`. -/
def splitOnChar (sep : Char) : List Char → List (List Char)
  | [] => [[]]
  | c :: rest =>
    if c = sep then [] :: splitOnChar sep rest
    else
      match splitOnChar sep rest with
      | [] => [[c]]
      | g :: gs => (c :: g) :: gs

/-- `s.split('->')`.  The two characters of the separator are distinct, so
occurrences cannot overlap and a left-to-right scan is exact. -/
def splitArrow : List Char → List (List Char)
  | [] => [[]]
  | '-' :: '>' :: rest => [] :: splitArrow rest
  | c :: rest =>
    match splitArrow rest with
    | [] => [[c]]
    | g :: gs => (c :: g) :: gs

/-- `s.includes('->')`. -/
def containsArrow : List Char → Bool
  | [] => false
  | '-' :: '>' :: _ => true
  | _ :: rest => containsArrow rest

/-- `_pgCol` on a character list: JSON path notation `metadata->key` becomes
the Postgres `->>` text extraction, any other column name is quoted. -/
def pgColChars (col : List Char) : List Char :=
  if containsArrow col then
    let parts := splitArrow col
    parts.headD [] ++ ('-' :: '>' :: '>' :: '\'' :: (parts.getD 1 [] ++ ['\'']))
  else
    '"' :: (col ++ ['"'])

/-- `_pgCol(col)` — convert JSON path notation (`metadata->key`) to the
Postgres `->>'key'` syntax, otherwise wrap in identifier quotes. -/
def pgCol (col : String) : String := String.mk (pgColChars col.data)

/-! ## JSON serialization (`JSON.stringify`) -/

/-- Escape one character for a JSON string literal. -/
def jsonEscapeChar (c : Char) : String :=
  if c = '"' then "\\\"" else if c = '\\' then "\\\\"
  else if c = '\n' then "\\n" else if c = '\r' then "\\r"
  else if c = '\t' then "\\t" else String.singleton c

/-- A JSON string literal. -/
def jsonQuote (s : String) : String :=
  "\"" ++ String.join (s.data.map jsonEscapeChar) ++ "\""

mutual

/-- `JSON.stringify(v)` (inside an array, `undefined` serializes as
`null`; the builder never stringifies a top-level `undefined`). -/
def jsonStringify : JVal → String
  | .jnull => "null"
  | .undef => "null"
  | .bool b => if b then "true" else "false"
  | .num n => toString n
  | .str s => jsonQuote s
  | .arr xs => "[" ++ jsonArrBody xs ++ "]"
  | .obj fs => "\x7b" ++ jsonObjBody fs ++ "\x7d"

/-- Comma-joined serializations of array elements. -/
def jsonArrBody : List JVal → String
  | [] => ""
  | [x] => jsonStringify x
  | x :: y :: xs => jsonStringify x ++ "," ++ jsonArrBody (y :: xs)

/-- Comma-joined serializations of object fields (`undefined`-valued keys
are omitted, as `JSON.stringify` does). -/
def jsonObjBody : List (String × JVal) → String
  | [] => ""
  | (k, v) :: fs =>
    match v with
    | .undef => jsonObjBody fs
    | _ =>
      let rest := jsonObjBody fs
      jsonQuote k ++ ":" ++ jsonStringify v ++ (if rest = "" then "" else "," ++ rest)

end

/-- `_pgVal(val)` — prepare a value for Postgres: `null`/`undefined` pass
through, an empty array becomes the literal `'{}'`, an array whose first
element is a (non-null) object is JSON-serialized, any other array passes
through natively, a plain object is JSON-serialized, scalars pass
through. -/
def pgVal (v : JVal) : JVal :=
  match v with
  | .jnull => .jnull
  | .undef => .undef
  | .arr [] => .str "\x7b\x7d"
  | .arr (x :: xs) =>
    if isObjNonNull x then .str (jsonStringify (.arr (x :: xs))) else .arr (x :: xs)
  | .obj fs => .str (jsonStringify (.obj fs))
  | other => other

/-! ## The builder state and its chainable methods -/

/-- The four operations (`this._operation`). -/
inductive Op where
  | oselect
  | oinsert
  | oupdate
  | oupsert
deriving DecidableEq

/-- A join descriptor pushed by `select` for an embedded relation:
target table, its requested columns, and the inferred foreign-key column. -/
structure Join where
  table : String
  columns : List String
  fk : String

/-- The mutable state accumulated by one `QueryBuilder` instance
(constructor defaults as in the source). -/
structure Builder where
  table : String
  operation : Option Op
  selectCols : String
  countExact : Bool
  joins : List Join
  wheres : List String
  params : List JVal
  orderClauses : List String
  limitVal : Option Int
  singleResult : Bool
  insertData : Option (List Row)
  updateData : Option Row
  upsertConflict : Option String
  returnData : Bool

/-- `db.from(table)` — a fresh builder scoped to one table. -/
def fromTable (table : String) : Builder :=
  { table := table, operation := none, selectCols := "*", countExact := false,
    joins := [], wheres := [], params := [], orderClauses := [],
    limitVal := none, singleResult := false, insertData := none,
    updateData := none, upsertConflict := none, returnData := false }

/-- Whether the current operation is one of the three mutations (the guard
at the top of `select`). -/
def isMutOp : Option Op → Bool
  | some .oinsert => true
  | some .oupdate => true
  | some .oupsert => true
  | _ => false

/-- One matched occurrence of the embedded-relation regex
`/,?\s*(\w+)\(([^)]+)\)/`: the text before the match, the two capture
groups, and the text after the match. -/
structure JoinMatch where
  pre : List Char
  word : List Char
  inner : List Char
  post : List Char

/-- Try the regex at the current position.  The pattern's pieces are
pairwise non-overlapping (`,` is neither `\s` nor `\w`, `\s` and `\w` are
disjoint, `(` is not `\w`, `)` terminates `[^)]+`), so greedy scanning
without backtracking is exactly the regex's backtracking semantics. -/
def matchJoinAt (s : List Char) : Option (List Char × List Char × List Char) :=
  let s1 := match s with
    | ',' :: rest => rest
    | _ => s
  let s2 := s1.dropWhile isSpaceJs
  let w := s2.takeWhile isWordJs
  match s2.dropWhile isWordJs with
  | '(' :: s4 =>
    if w.isEmpty then none
    else
      let inner := s4.takeWhile (fun c => ¬ c = ')')
      if inner.isEmpty then none
      else
        match s4.dropWhile (fun c => ¬ c = ')') with
        | ')' :: s6 => some (w, inner, s6)
        | _ => none
  | _ => none

/-- First match of the embedded-relation regex (earliest start index, as
`String.prototype.match` finds it). -/
def findJoin : List Char → Option JoinMatch
  | [] => none
  | c :: rest =>
    match matchJoinAt (c :: rest) with
    | some (w, inner, post) => some ⟨[], w, inner, post⟩
    | none =>
      match findJoin rest with
      | some m => some ⟨c :: m.pre, m.word, m.inner, m.post⟩
      | none => none

/-- `replace(/,\s*$/, '')` applied to an already-trimmed string: strips one
trailing comma. -/
def stripTrailingComma (s : List Char) : List Char :=
  match s.getLast? with
  | some ',' => s.dropLast
  | _ => s

/-- `replace(/s$/, '')` — singularize by dropping one trailing `s`. -/
def stripTrailingS (s : List Char) : List Char :=
  match s.getLast? with
  | some 's' => s.dropLast
  | _ => s

namespace Builder

/-- `select(columns, options)` — dual purpose: after a mutation it only
flips the RETURNING flag; otherwise it chooses the select operation,
records `countExact`, and parses an embedded relation such as
`"*, products(title, price)"` into a join descriptor. -/
def select (qb : Builder) (columns : String) (count_opt : Option String) : Builder :=
  if isMutOp qb.operation then
    { qb with returnData := true }
  else
    let qb := { qb with operation := some .oselect, countExact := count_opt = some "exact" }
    match findJoin columns.data with
    | some m =>
      let clean := stripTrailingComma (trimChars (m.pre ++ m.post))
      { qb with
        selectCols := if clean.isEmpty then "*" else String.mk clean,
        joins := qb.joins ++
          [{ table := String.mk m.word,
             columns := (splitOnChar ',' m.inner).map (fun c => String.mk (trimChars c)),
             fk := String.mk (stripTrailingS m.word) ++ "_id" }] }
    | none => { qb with selectCols := columns }

/-- `eq(column, value)` — `WHERE column = value`. -/
def eq (qb : Builder) (column : String) (value : JVal) : Builder :=
  let ps := qb.params ++ [value]
  { qb with params := ps,
            wheres := qb.wheres ++ [pgCol column ++ " = $" ++ toString ps.length] }

/-- `neq(column, value)` — `WHERE column != value`. -/
def neq (qb : Builder) (column : String) (value : JVal) : Builder :=
  let ps := qb.params ++ [value]
  { qb with params := ps,
            wheres := qb.wheres ++ [pgCol column ++ " != $" ++ toString ps.length] }

/-- `not(column, operator, value)` — only `('is', null)` and `'eq'` are
supported; anything else is a silent no-op. -/
def not (qb : Builder) (column : String) (operator : String) (value : JVal) : Builder :=
  if operator = "is" ∧ isNullJ value then
    { qb with wheres := qb.wheres ++ [pgCol column ++ " IS NOT NULL"] }
  else if operator = "eq" then
    let ps := qb.params ++ [value]
    { qb with params := ps,
              wheres := qb.wheres ++ [pgCol column ++ " != $" ++ toString ps.length] }
  else qb

/-- `is(column, value)` — `IS NULL` for null, otherwise `IS value`. -/
def is (qb : Builder) (column : String) (value : JVal) : Builder :=
  if isNullJ value then
    { qb with wheres := qb.wheres ++ [pgCol column ++ " IS NULL"] }
  else
    let ps := qb.params ++ [value]
    { qb with params := ps,
              wheres := qb.wheres ++ [pgCol column ++ " IS $" ++ toString ps.length] }

/-- `gt(column, value)`. -/
def gt (qb : Builder) (column : String) (value : JVal) : Builder :=
  let ps := qb.params ++ [value]
  { qb with params := ps,
            wheres := qb.wheres ++ [pgCol column ++ " > $" ++ toString ps.length] }

/-- `gte(column, value)`. -/
def gte (qb : Builder) (column : String) (value : JVal) : Builder :=
  let ps := qb.params ++ [value]
  { qb with params := ps,
            wheres := qb.wheres ++ [pgCol column ++ " >= $" ++ toString ps.length] }

/-- `lt(column, value)`. -/
def lt (qb : Builder) (column : String) (value : JVal) : Builder :=
  let ps := qb.params ++ [value]
  { qb with params := ps,
            wheres := qb.wheres ++ [pgCol column ++ " < $" ++ toString ps.length] }

/-- `lte(column, value)`. -/
def lte (qb : Builder) (column : String) (value : JVal) : Builder :=
  let ps := qb.params ++ [value]
  { qb with params := ps,
            wheres := qb.wheres ++ [pgCol column ++ " <= $" ++ toString ps.length] }

/-- `order(column, options)` — `options.ascending === false` means DESC. -/
def order (qb : Builder) (column : String) (ascending : Option Bool) : Builder :=
  let dir := if ascending = some false then "DESC" else "ASC"
  { qb with orderClauses := qb.orderClauses ++ [pgCol column ++ " " ++ dir] }

/-- `limit(n)`. -/
def limit (qb : Builder) (n : Int) : Builder :=
  { qb with limitVal := some n }

/-- `single()` — single-row mode; also forces the limit to 1. -/
def single (qb : Builder) : Builder :=
  { qb with singleResult := true, limitVal := some 1 }

/-- `insert(data)` — `data` is the already-normalized row list
(`Array.isArray(data) ? data : [data]`; a single object is `[row]`). -/
def insert (qb : Builder) (rows : List Row) : Builder :=
  { qb with operation := some .oinsert, insertData := some rows }

/-- `update(data)`. -/
def update (qb : Builder) (vals : Row) : Builder :=
  { qb with operation := some .oupdate, updateData := some vals }

/-- `upsert(data, options)` — rows normalized as for `insert`;
`options.onConflict || 'id'` (the empty string is falsy in JS). -/
def upsert (qb : Builder) (rows : List Row) (conflict_opt : Option String) : Builder :=
  { qb with operation := some .oupsert, insertData := some rows,
            upsertConflict := some (match conflict_opt with
              | some s => if s = "" then "id" else s
              | none => "id") }

end Builder

/-- One call in a fluent chain after `from(table)`. -/
inductive Method where
  | mselect (columns : String) (count_opt : Option String)
  | meq (column : String) (value : JVal)
  | mneq (column : String) (value : JVal)
  | mnot (column : String) (operator : String) (value : JVal)
  | mis (column : String) (value : JVal)
  | mgt (column : String) (value : JVal)
  | mgte (column : String) (value : JVal)
  | mlt (column : String) (value : JVal)
  | mlte (column : String) (value : JVal)
  | morder (column : String) (ascending : Option Bool)
  | mlimit (n : Int)
  | msingle
  | minsert (rows : List Row)
  | mupdate (vals : Row)
  | mupsert (rows : List Row) (conflict_opt : Option String)

/-- Apply one chained call to the builder state. -/
def applyM (qb : Builder) : Method → Builder
  | .mselect cols co => qb.select cols co
  | .meq c v => qb.eq c v
  | .mneq c v => qb.neq c v
  | .mnot c o v => qb.not c o v
  | .mis c v => qb.is c v
  | .mgt c v => qb.gt c v
  | .mgte c v => qb.gte c v
  | .mlt c v => qb.lt c v
  | .mlte c v => qb.lte c v
  | .morder c a => qb.order c a
  | .mlimit n => qb.limit n
  | .msingle => qb.single
  | .minsert rows => qb.insert rows
  | .mupdate vals => qb.update vals
  | .mupsert rows co => qb.upsert rows co

/-- Run a whole chain `db.from(t).m₁.….mₙ`. -/
def runChain (t : String) (ms : List Method) : Builder :=
  ms.foldl applyM (fromTable t)

/-! ## Execution: SQL compilation and result normalization -/

/-- The `error` slot of the result envelope: `null`, an `Error` instance
(`new Error(msg)` or a thrown driver error), or the plain object
`{message: msg}`. -/
inductive ErrVal where
  | noErr
  | errObj (msg : String)
  | msgObj (msg : String)
deriving DecidableEq

/-- The `count` slot: absent from the returned object (`undefined`),
`null`, `NaN` from `parseInt`, or an integer. -/
inductive CountField where
  | undefC
  | nullC
  | nanC
  | intC (n : Int)
deriving DecidableEq

/-- The `{ data, error, count }` result envelope. -/
structure Envelope where
  data : JVal
  error : ErrVal
  count : CountField

/-- The database connector (`pool.query`): an SQL text and a positional
parameter list give either the result rows or a thrown/rejected error. -/
abbrev Conn := String → List JVal → Except String (List Row)

/-- `Array.prototype.join(sep)`. -/
def joinWith (sep : String) : List String → String
  | [] => ""
  | [x] => x
  | x :: y :: xs => x ++ sep ++ joinWith sep (y :: xs)

/-- `join(', ')`, the separator used throughout the compiler. -/
def joinComma : List String → String := joinWith ", "

/-- `"${k}"` — identifier quoting. -/
def quoteId (k : String) : String := "\"" ++ k ++ "\""

/-- Leading decimal digits of a character list. -/
def leadingNat (cs : List Char) : Option Nat :=
  let ds := cs.takeWhile (fun c => '0' ≤ c ∧ c ≤ '9')
  if ds.isEmpty then none
  else some (ds.foldl (fun n c => n * 10 + (c.toNat - 48)) 0)

/-- `parseInt` on a string: optional sign, then leading digits; `NaN`
when no digit is found. -/
def parseIntChars (cs : List Char) : Option Int :=
  match cs with
  | '-' :: rest => (leadingNat rest).map (fun n => -(n : Int))
  | '+' :: rest => (leadingNat rest).map (fun n => (n : Int))
  | _ => (leadingNat cs).map (fun n => (n : Int))

/-- `parseInt(v)` on the driver's count value (a numeric string from the
driver, or a number). -/
def parseIntJs : JVal → CountField
  | .num n => .intC n
  | .str s =>
    match parseIntChars (trimChars s.data) with
    | some n => .intC n
    | none => .nanC
  | _ => .nanC

/-- `rows[0] || null` for a row list (driver rows are objects, hence
truthy). -/
def headObjOrNull : List Row → JVal
  | [] => .jnull
  | r :: _ => .obj r

/-- The `WHERE` fragment of a statement (empty when no filter). -/
def whereSql (qb : Builder) : String :=
  if qb.wheres.isEmpty then "" else " WHERE " ++ joinWith " AND " qb.wheres

/-- The `ORDER BY` fragment. -/
def orderSql (qb : Builder) : String :=
  if qb.orderClauses.isEmpty then "" else " ORDER BY " ++ joinComma qb.orderClauses

/-- The `LIMIT` fragment (`this._limitVal != null`). -/
def limitSql (qb : Builder) : String :=
  match qb.limitVal with
  | some n => " LIMIT " ++ toString n
  | none => ""

/-- The projection of a join-free select: `*` stays `*`, otherwise the
column string is comma-split, trimmed, and quoted per column. -/
def selectNoJoinCols (qb : Builder) : String :=
  if qb.selectCols = "*" then "*"
  else joinComma ((splitOnChar ',' qb.selectCols.data).map
    (fun c => quoteId (String.mk (trimChars c))))

/-- The main-table projection when a join is present. -/
def selectJoinMainCols (qb : Builder) : String :=
  if qb.selectCols = "*" then quoteId qb.table ++ ".*"
  else joinComma ((splitOnChar ',' qb.selectCols.data).map
    (fun c => quoteId qb.table ++ "." ++ quoteId (String.mk (trimChars c))))

/-- The aliased joined columns: `"t"."c" AS "t_c"`. -/
def joinColsSql (j : Join) : String :=
  joinComma (j.columns.map (fun c =>
    quoteId j.table ++ "." ++ quoteId c ++ " AS " ++ quoteId (j.table ++ "_" ++ c)))

/-- The SELECT statement before WHERE/ORDER BY/LIMIT. -/
def selectSqlBase (qb : Builder) : String :=
  match qb.joins with
  | [] => "SELECT " ++ selectNoJoinCols qb ++ " FROM " ++ quoteId qb.table
  | j :: _ =>
    "SELECT " ++ selectJoinMainCols qb ++ ", " ++ joinColsSql j ++ " FROM " ++
      quoteId qb.table ++ " LEFT JOIN " ++ quoteId j.table ++ " ON " ++
      quoteId qb.table ++ "." ++ quoteId j.fk ++ " = " ++ quoteId j.table ++ ".\"id\""

/-- The full compiled SELECT statement. -/
def selectSql (qb : Builder) : String :=
  selectSqlBase qb ++ whereSql qb ++ orderSql qb ++ limitSql qb

/-- The auxiliary exact-count statement (same WHERE clauses and
parameters). -/
def countSql (qb : Builder) : String :=
  "SELECT COUNT(*) FROM " ++ quoteId qb.table ++ whereSql qb

/-- Reshape one joined row: lift the aliased flat columns into a nested
object keyed by the target table name and delete the flat keys. -/
def reshapeRow (j : Join) (row : Row) : Row :=
  let nested := j.columns.foldl (fun n c => setKey n c (getKey row (j.table ++ "_" ++ c))) []
  let main := j.columns.foldl (fun m c => delKey m (j.table ++ "_" ++ c)) row
  setKey main j.table (.obj nested)

/-- Reshape the result rows when a join was recorded (`this._joins[0]`). -/
def reshapeRows (qb : Builder) (rows : List Row) : List Row :=
  match qb.joins with
  | [] => rows
  | j :: _ => rows.map (reshapeRow j)

/-- `_execSelect` (an awaited driver rejection propagates as the thrown
error). -/
def execSelect (conn : Conn) (qb : Builder) : Except String Envelope :=
  match conn (selectSql qb) qb.params with
  | .error e => .error e
  | .ok result =>
    let rows := reshapeRows qb result
    let data : JVal := if qb.singleResult then headObjOrNull rows else .arr (rows.map .obj)
    let error : ErrVal :=
      if qb.singleResult && rows.isEmpty then .msgObj "Row not found" else .noErr
    if qb.countExact then
      match conn (countSql qb) qb.params with
      | .error e => .error e
      | .ok [] => .error "TypeError: Cannot read properties of undefined (reading count)"
      | .ok (r :: _) => .ok ⟨data, error, parseIntJs (getKey r "count")⟩
    else .ok ⟨data, error, .nullC⟩

/-- The shared insert/upsert VALUES builder: walk the rows, and for each
row push each key's coerced value and a placeholder numbered by the
running length of the value list. -/
def buildValues (keys : List String) (rows : List Row) : List JVal × List String :=
  rows.foldl
    (fun acc row =>
      let rowAcc := keys.foldl
        (fun (acc2 : List JVal × List String) k =>
          let vs := acc2.1 ++ [pgVal (getKey row k)]
          (vs, acc2.2 ++ ["$" ++ toString vs.length]))
        (acc.1, [])
      (rowAcc.1, acc.2 ++ ["(" ++ joinComma rowAcc.2 ++ ")"]))
    ([], [])

/-- The INSERT statement before the conditional RETURNING suffix. -/
def insertBaseSql (table : String) (keys : List String) (rows : List Row) : String :=
  "INSERT INTO " ++ quoteId table ++ " (" ++ joinComma (keys.map quoteId) ++
    ") VALUES " ++ joinComma (buildValues keys rows).2

/-- The full compiled INSERT statement. -/
def insertSql (qb : Builder) (keys : List String) (rows : List Row) : String :=
  insertBaseSql qb.table keys rows ++ (if qb.returnData then " RETURNING *" else "")

/-- `_execInsert`. -/
def execInsert (conn : Conn) (qb : Builder) : Except String Envelope :=
  match qb.insertData with
  | none => .error "TypeError: Cannot read properties of null (reading length)"
  | some rows =>
    if rows.isEmpty then .ok ⟨.jnull, .noErr, .undefC⟩
    else
      let keys := objKeys (rows.headD [])
      match conn (insertSql qb keys rows) (buildValues keys rows).1 with
      | .error e => .error e
      | .ok result =>
        let data : JVal :=
          if qb.returnData then
            if qb.singleResult then headObjOrNull result else .arr (result.map .obj)
          else .jnull
        .ok ⟨data, .noErr, .undefC⟩

/-- The update SET-clause builder: push each coerced value onto the
already-accumulated filter parameters and number the clause by the
resulting length. -/
def updateSetFold (startParams : List JVal) (ud : Row) : List JVal × List String :=
  (objKeys ud).foldl
    (fun (acc : List JVal × List String) k =>
      let ps := acc.1 ++ [pgVal (getKey ud k)]
      (ps, acc.2 ++ [quoteId k ++ " = $" ++ toString ps.length]))
    (startParams, [])

/-- The UPDATE statement before the conditional RETURNING suffix. -/
def updateBaseSql (qb : Builder) (setClauses : List String) : String :=
  "UPDATE " ++ quoteId qb.table ++ " SET " ++ joinComma setClauses ++ whereSql qb

/-- The full compiled UPDATE statement. -/
def updateSql (qb : Builder) (setClauses : List String) : String :=
  updateBaseSql qb setClauses ++ (if qb.returnData then " RETURNING *" else "")

/-- `_execUpdate`. -/
def execUpdate (conn : Conn) (qb : Builder) : Except String Envelope :=
  match qb.updateData with
  | none => .error "TypeError: Cannot convert undefined or null to object"
  | some ud =>
    let built := updateSetFold qb.params ud
    match conn (updateSql qb built.2) built.1 with
    | .error e => .error e
    | .ok result =>
      let data : JVal :=
        if qb.returnData then
          if qb.singleResult then headObjOrNull result else .arr (result.map .obj)
        else .jnull
      .ok ⟨data, .noErr, .undefC⟩

/-- The trimmed conflict-target column list
(`this._upsertConflict.split(',').map(c => c.trim())`). -/
def conflictTrimmed (conflict : String) : List String :=
  (splitOnChar ',' conflict.data).map (fun c => String.mk (trimChars c))

/-- The quoted conflict-target list of the `ON CONFLICT` clause. -/
def conflictColsSql (conflict : String) : String :=
  joinComma ((conflictTrimmed conflict).map quoteId)

/-- One `DO UPDATE SET` assignment. -/
def excludedAssign (k : String) : String :=
  quoteId k ++ " = EXCLUDED." ++ quoteId k

/-- The `DO UPDATE SET` assignments: every key of the first row that is
not in the conflict-target list. -/
def upsertClauses (keys : List String) (conflict : String) : List String :=
  (keys.filter (fun k => !(conflictTrimmed conflict).contains k)).map excludedAssign

/-- The UPSERT statement before the RETURNING suffix. -/
def upsertBaseSql (table : String) (keys : List String) (rows : List Row)
    (conflict : String) : String :=
  "INSERT INTO " ++ quoteId table ++ " (" ++ joinComma (keys.map quoteId) ++
    ") VALUES " ++ joinComma (buildValues keys rows).2 ++
    " ON CONFLICT (" ++ conflictColsSql conflict ++ ") DO UPDATE SET " ++
    joinComma (upsertClauses keys conflict)

/-- The full compiled UPSERT statement (RETURNING is unconditional). -/
def upsertSql (table : String) (keys : List String) (rows : List Row)
    (conflict : String) : String :=
  upsertBaseSql table keys rows conflict ++ " RETURNING *"

/-- `_execUpsert`. -/
def execUpsert (conn : Conn) (qb : Builder) : Except String Envelope :=
  match qb.insertData with
  | none => .error "TypeError: Cannot read properties of null (reading length)"
  | some rows =>
    if rows.isEmpty then .ok ⟨.jnull, .noErr, .undefC⟩
    else
      match qb.upsertConflict with
      | none => .error "TypeError: Cannot read properties of null (reading split)"
      | some conflict =>
        let keys := objKeys (rows.headD [])
        match conn (upsertSql qb.table keys rows conflict) (buildValues keys rows).1 with
        | .error e => .error e
        | .ok result =>
          let data : JVal :=
            if qb.singleResult then headObjOrNull result else .arr (result.map .obj)
          .ok ⟨data, .noErr, .undefC⟩

/-- The body of `_execute` up to (and excluding) the `catch`: dispatch on
the chosen operation; with no operation chosen, resolve to the
`No operation specified` envelope (whose `count` slot is absent). -/
def innerExec (conn : Conn) (qb : Builder) : Except String Envelope :=
  match qb.operation with
  | some .oselect => execSelect conn qb
  | some .oinsert => execInsert conn qb
  | some .oupdate => execUpdate conn qb
  | some .oupsert => execUpsert conn qb
  | none => .ok ⟨.jnull, .errObj "No operation specified", .undefC⟩

/-- `_execute()` — the `try`/`catch`: any error thrown during execution is
caught and funnelled into the `{data: null, error, count: null}` envelope.
The awaited chain therefore always resolves (`then` merely forwards this
promise), which this total function models. -/
def executeQB (conn : Conn) (qb : Builder) : Envelope :=
  match innerExec conn qb with
  | .ok env => env
  | .error e => ⟨.jnull, .errObj e, .nullC⟩

/-! ## Test connectors -/

/-- A connector whose every query succeeds with no rows. -/
def connNull : Conn := fun _ _ => .ok []

/-- A connector whose every query fails (a driver/connectivity error). -/
def connFail : Conn := fun _ _ => .error "connection refused"

/-! ## Claim C10 — empty insert/upsert row sequences -/

/-- **C10.** For every chain whose operation is insert or upsert with an
empty row sequence, execution resolves to `{data: null, error: null}`
(with no `count` slot) and the result does not depend on the connector —
no statement is issued to the database. -/
theorem C10_empty_insert_upsert (conn conn' : Conn) (qb : Builder)
    (hop : qb.operation = some .oinsert ∨ qb.operation = some .oupsert)
    (hrows : qb.insertData = some []) :
    executeQB conn qb = ⟨.jnull, .noErr, .undefC⟩ ∧
    executeQB conn qb = executeQB conn' qb := by
  rcases hop with h | h <;>
    simp [executeQB, innerExec, h, execInsert, execUpsert, hrows]

/-- Witness for C10 at a concrete chain: `from('users').insert([])`. -/
theorem C10_witness :
    executeQB connNull (runChain "users" [.minsert []]) = ⟨.jnull, .noErr, .undefC⟩ :=
  (C10_empty_insert_upsert connNull connFail (runChain "users" [.minsert []])
    (Or.inl rfl) rfl).1

/-! ## Claim C8 — value coercion before binding -/

/-- **C8.** `_pgVal`'s case analysis: `null`/`undefined` pass through; a
non-empty array whose first element is not an object passes through; the
empty array becomes the literal string `'{}'`; an array whose first
element is an object, and any plain object, are JSON-serialized; scalars
pass through unchanged. -/
theorem C8_pgVal_coercion (v : JVal) :
    ((v = .jnull ∨ v = .undef) → pgVal v = v) ∧
    (∀ x xs, v = .arr (x :: xs) → isObjNonNull x = false → pgVal v = v) ∧
    (v = .arr [] → pgVal v = .str "\x7b\x7d") ∧
    (∀ x xs, v = .arr (x :: xs) → isObjNonNull x = true →
        pgVal v = .str (jsonStringify v)) ∧
    (∀ fs, v = .obj fs → pgVal v = .str (jsonStringify v)) ∧
    (∀ b, v = .bool b → pgVal v = v) ∧
    (∀ n, v = .num n → pgVal v = v) ∧
    (∀ s, v = .str s → pgVal v = v) := by
  refine ⟨?_, ?_, ?_, ?_, ?_, ?_, ?_, ?_⟩
  · rintro (rfl | rfl) <;> rfl
  · rintro x xs rfl h; simp [pgVal, h]
  · rintro rfl; rfl
  · rintro x xs rfl h; simp [pgVal, h]
  · rintro fs rfl; rfl
  · rintro b rfl; rfl
  · rintro n rfl; rfl
  · rintro s rfl; rfl

/-- Witness for C8 at concrete values: the empty array and a plain
numeric array. -/
theorem C8_witness :
    pgVal (.arr []) = .str "\x7b\x7d" ∧
    pgVal (.arr [.num 1, .num 2]) = .arr [.num 1, .num 2] :=
  ⟨(C8_pgVal_coercion (.arr [])).2.2.1 rfl,
   (C8_pgVal_coercion (.arr [.num 1, .num 2])).2.1 (.num 1) [.num 2] rfl rfl⟩

/-! ## Claim C9 — the `singleRow → limit = 1` invariant -/

/-- **C9 counterexample.** The claimed invariant `singleRow → limitValue = 1`
is *not* preserved by every builder method: `limit(5)` called after
`single()` leaves `singleResult` set while changing the limit to 5. -/
theorem C9_counterexample :
    (runChain "users" [.msingle, .mlimit 5]).singleResult = true ∧
    (runChain "users" [.msingle, .mlimit 5]).limitVal = some 5 ∧
    some (5 : Int) ≠ some (1 : Int) :=
  ⟨rfl, rfl, by decide⟩

/-- **C9 amended.** `single()` sets the single-row flag and forces
`limitValue` to 1, and every builder method *except `limit`* preserves the
invariant `singleRow → limitValue = 1`; a later `limit(n)` call can break
it. -/
theorem C9_amended (qb : Builder) (m : Method)
    (hinv : qb.singleResult = true → qb.limitVal = some 1)
    (hnl : ∀ n, m ≠ .mlimit n) :
    ((applyM qb m).singleResult = true → (applyM qb m).limitVal = some 1) ∧
    (applyM qb .msingle).limitVal = some 1 ∧
    (applyM qb .msingle).singleResult = true := by
  refine ⟨?_, rfl, rfl⟩
  cases m with
  | mlimit n => exact absurd rfl (hnl n)
  | mselect cols co =>
    simp only [applyM, Builder.select]
    split
    · exact hinv
    · cases h : findJoin cols.data <;> simp <;> exact hinv
  | mnot c o v =>
    simp only [applyM, Builder.not]
    split
    · exact hinv
    · split <;> exact hinv
  | mis c v =>
    simp only [applyM, Builder.is]
    split <;> exact hinv
  | msingle => exact fun _ => rfl
  | _ => exact hinv

/-- Witness for C9 amended: an `eq` filter after `single()` keeps the
limit at 1. -/
theorem C9_witness :
    (applyM (runChain "t" [.msingle]) (.meq "a" (.num 1))).limitVal = some 1 :=
  (C9_amended (runChain "t" [.msingle]) (.meq "a" (.num 1))
    (fun _ => rfl) (fun n h => by cases h)).1 rfl

/-! ## Claim C1 — the never-throw / error-envelope contract -/

/-- **C1 counterexample.** The no-operation compilation error resolves to
`{data: null, error: Error('No operation specified')}` — an envelope whose
`count` slot is *absent* (`undefined`), not `null` as the claim states for
every failure path. -/
theorem C1_counterexample :
    executeQB connNull (fromTable "users") =
      ⟨.jnull, .errObj "No operation specified", .undefC⟩ ∧
    CountField.undefC ≠ CountField.nullC :=
  ⟨rfl, by decide⟩

/-- **C1 amended.** Once a chain executes it always resolves (`executeQB`
is total: the `try`/`catch` converts every thrown error into an
envelope).  Every execution-time driver error resolves to
`{data: null, error: <the error>, count: null}`; the no-operation
compilation error resolves to `{data: null, error: Error(...)}` with the
`count` slot absent (`undefined`) rather than `null`. -/
theorem C1_amended (conn : Conn) (qb : Builder) :
    (∀ e, innerExec conn qb = .error e →
        executeQB conn qb = ⟨.jnull, .errObj e, .nullC⟩) ∧
    (qb.operation = none →
        executeQB conn qb = ⟨.jnull, .errObj "No operation specified", .undefC⟩) := by
  constructor
  · intro e he; simp [executeQB, he]
  · intro h; simp [executeQB, innerExec, h]

/-- Witness for C1 amended: a select chain over a failing connector
resolves to the error envelope with `count: null`. -/
theorem C1_witness :
    executeQB connFail (runChain "users" [.mselect "*" none]) =
      ⟨.jnull, .errObj "connection refused", .nullC⟩ :=
  (C1_amended connFail (runChain "users" [.mselect "*" none])).1
    "connection refused" rfl

/-! ## Arrow-split lemmas (for `_pgCol`) -/

/-- A list whose tail contains no `->` and that does not itself start one
keeps `containsArrow` decisions in the tail. -/
theorem containsArrow_cons_false {c : Char} {l : List Char}
    (h : containsArrow (c :: l) = false) : containsArrow l = false := by
  cases l with
  | nil => rfl
  | cons c2 rest =>
    by_cases hm : c = '-' ∧ c2 = '>'
    · obtain ⟨rfl, rfl⟩ := hm
      simp [containsArrow] at h
    · rw [containsArrow.eq_3] at h
      · exact h
      · intro tail hc hr
        injection hr with h1 _
        exact hm ⟨hc, h1⟩

/-- Appending a `->` separator to an arrow-free list makes
`containsArrow` true. -/
theorem containsArrow_append_sep (b : List Char) :
    ∀ a : List Char, containsArrow a = false →
      containsArrow (a ++ '-' :: '>' :: b) = true
  | [], _ => rfl
  | c :: a', h => by
    have h' : containsArrow a' = false := containsArrow_cons_false h
    cases a' with
    | nil =>
      rw [List.cons_append, List.nil_append, containsArrow.eq_3]
      · rfl
      · intro tail _ hr
        injection hr with h1 _
        exact absurd h1 (by decide)
    | cons c2 a'' =>
      by_cases hm : c = '-' ∧ c2 = '>'
      · obtain ⟨rfl, rfl⟩ := hm
        simp [containsArrow] at h
      · rw [List.cons_append, containsArrow.eq_3]
        · exact containsArrow_append_sep b (c2 :: a'') h'
        · intro tail hc hr
          rw [List.cons_append] at hr
          injection hr with h1 _
          exact hm ⟨hc, h1⟩

/-- `split('->')` of an arrow-free list is the singleton of the list. -/
theorem splitArrow_no_arrow : ∀ l : List Char, containsArrow l = false →
    splitArrow l = [l]
  | [], _ => rfl
  | c :: l', h => by
    have h' : containsArrow l' = false := containsArrow_cons_false h
    cases l' with
    | nil =>
      rw [splitArrow.eq_3]
      · rfl
      · intro tail _ hr; cases hr
    | cons c2 rest =>
      by_cases hm : c = '-' ∧ c2 = '>'
      · obtain ⟨rfl, rfl⟩ := hm
        simp [containsArrow] at h
      · rw [splitArrow.eq_3]
        · rw [splitArrow_no_arrow (c2 :: rest) h']
        · intro tail hc hr
          injection hr with h1 _
          exact hm ⟨hc, h1⟩

/-- `split('->')` around the first separator: with an arrow-free prefix
the head group is exactly that prefix. -/
theorem splitArrow_append_sep (b : List Char) :
    ∀ a : List Char, containsArrow a = false →
      splitArrow (a ++ '-' :: '>' :: b) = a :: splitArrow b
  | [], _ => rfl
  | c :: a', h => by
    have h' : containsArrow a' = false := containsArrow_cons_false h
    cases a' with
    | nil =>
      rw [List.cons_append, List.nil_append, splitArrow.eq_3]
      · rfl
      · intro tail _ hr
        injection hr with h1 _
        exact absurd h1 (by decide)
    | cons c2 a'' =>
      by_cases hm : c = '-' ∧ c2 = '>'
      · obtain ⟨rfl, rfl⟩ := hm
        simp [containsArrow] at h
      · rw [List.cons_append, splitArrow.eq_3]
        · rw [splitArrow_append_sep b (c2 :: a'') h']
        · intro tail hc hr
          rw [List.cons_append] at hr
          injection hr with h1 _
          exact hm ⟨hc, h1⟩

/-- `splitArrow` never returns the empty list. -/
theorem splitArrow_ne_nil : ∀ l : List Char, splitArrow l ≠ []
  | [] => by simp [splitArrow]
  | '-' :: '>' :: rest => by simp [splitArrow]
  | c :: rest => by
    rw [splitArrow.eq_def]
    intro h
    revert h
    split
    · simp
    · simp
    · split <;> simp

/-! ## Claim C6 — JSON path rewrite and uniform column resolution -/

/-- **C6.** A column name of the form `a->b` (one `->` separator) is
rewritten to the text-extraction fragment `a->>'b'`; a column name without
`->` is wrapped in double-quote identifier quoting; and this resolution
(`_pgCol`) is applied uniformly by every filter method and by `order()`. -/
theorem C6_column_resolution (a b c col : String) (qb : Builder) (v : JVal)
    (asc : Option Bool)
    (ha : containsArrow a.data = false) (hb : containsArrow b.data = false)
    (hc : containsArrow c.data = false) :
    pgCol (a ++ "->" ++ b) = a ++ "->>'" ++ b ++ "'" ∧
    pgCol c = "\"" ++ c ++ "\"" ∧
    (qb.eq col v).wheres =
      qb.wheres ++ [pgCol col ++ " = $" ++ toString (qb.params.length + 1)] ∧
    (qb.neq col v).wheres =
      qb.wheres ++ [pgCol col ++ " != $" ++ toString (qb.params.length + 1)] ∧
    (qb.gt col v).wheres =
      qb.wheres ++ [pgCol col ++ " > $" ++ toString (qb.params.length + 1)] ∧
    (qb.gte col v).wheres =
      qb.wheres ++ [pgCol col ++ " >= $" ++ toString (qb.params.length + 1)] ∧
    (qb.lt col v).wheres =
      qb.wheres ++ [pgCol col ++ " < $" ++ toString (qb.params.length + 1)] ∧
    (qb.lte col v).wheres =
      qb.wheres ++ [pgCol col ++ " <= $" ++ toString (qb.params.length + 1)] ∧
    (qb.is col .jnull).wheres = qb.wheres ++ [pgCol col ++ " IS NULL"] ∧
    (isNullJ v = false → (qb.is col v).wheres =
      qb.wheres ++ [pgCol col ++ " IS $" ++ toString (qb.params.length + 1)]) ∧
    (qb.not col "is" .jnull).wheres = qb.wheres ++ [pgCol col ++ " IS NOT NULL"] ∧
    (qb.not col "eq" v).wheres =
      qb.wheres ++ [pgCol col ++ " != $" ++ toString (qb.params.length + 1)] ∧
    (qb.order col asc).orderClauses =
      qb.orderClauses ++
        [pgCol col ++ " " ++ (if asc = some false then "DESC" else "ASC")] := by
  refine ⟨?_, ?_, ?_, ?_, ?_, ?_, ?_, ?_, ?_, ?_, ?_, ?_, ?_⟩
  · have hdata : (a ++ "->" ++ b).data = a.data ++ '-' :: '>' :: b.data := by
      simp [String.data_append]
    apply String.ext
    rw [pgCol, pgColChars, hdata, containsArrow_append_sep b.data a.data ha,
      if_pos rfl, splitArrow_append_sep b.data a.data ha,
      splitArrow_no_arrow b.data hb]
    simp [String.data_append]
  · apply String.ext
    rw [pgCol, pgColChars, if_neg (by simp [hc])]
    simp [String.data_append]
  · simp [Builder.eq]
  · simp [Builder.neq]
  · simp [Builder.gt]
  · simp [Builder.gte]
  · simp [Builder.lt]
  · simp [Builder.lte]
  · simp [Builder.is, isNullJ]
  · intro hv; simp [Builder.is, hv]
  · simp [Builder.not, isNullJ]
  · simp [Builder.not]
  · simp [Builder.order]

/-- Witness for C6 at concrete column names and a concrete filter. -/
theorem C6_witness :
    pgCol ("metadata" ++ "->" ++ "key") = "metadata" ++ "->>'" ++ "key" ++ "'" ∧
    pgCol "name" = "\"" ++ "name" ++ "\"" :=
  ⟨(C6_column_resolution "metadata" "key" "name" "x" (fromTable "t") .jnull none
      rfl rfl rfl).1,
   (C6_column_resolution "metadata" "key" "name" "x" (fromTable "t") .jnull none
      rfl rfl rfl).2.1⟩

/-! ## Claim C4 — upsert conflict exclusion -/

/-- The `DO UPDATE SET` assignment text determines its column. -/
theorem excludedAssign_inj {k k' : String}
    (h : excludedAssign k = excludedAssign k') : k = k' := by
  have hd := congrArg String.data h
  simp only [excludedAssign, quoteId, String.data_append] at hd
  have hlen := congrArg List.length hd
  simp only [List.length_append, List.length_cons] at hlen
  apply String.ext
  have hd' : k.data ++ ("\" = EXCLUDED.\"".data ++ k.data ++ "\"".data) =
      k'.data ++ ("\" = EXCLUDED.\"".data ++ k'.data ++ "\"".data) := by
    simpa [List.append_assoc] using hd
  exact List.append_inj_left hd' (by omega)

/-- **C4.** For every row shape and conflict-target list, the generated
`DO UPDATE SET` assignments are exactly those for the row keys *not* in
the (trimmed) conflict-target list; an assignment for a conflict-target
column never occurs. -/
theorem C4_upsert_conflict_exclusion (r : Row) (conflictRaw k : String) :
    (excludedAssign k ∈ upsertClauses (objKeys r) conflictRaw ↔
      k ∈ objKeys r ∧ k ∉ conflictTrimmed conflictRaw) ∧
    (k ∈ conflictTrimmed conflictRaw →
      excludedAssign k ∉ upsertClauses (objKeys r) conflictRaw) := by
  have hiff : excludedAssign k ∈ upsertClauses (objKeys r) conflictRaw ↔
      k ∈ objKeys r ∧ k ∉ conflictTrimmed conflictRaw := by
    constructor
    · intro hmem
      obtain ⟨k', hk', he⟩ := List.mem_map.1 hmem
      obtain rfl := excludedAssign_inj he
      have hf := List.mem_filter.1 hk'
      refine ⟨hf.1, ?_⟩
      simpa using hf.2
    · rintro ⟨h1, h2⟩
      exact List.mem_map.2 ⟨k, List.mem_filter.2 ⟨h1, by simpa using h2⟩, rfl⟩
  exact ⟨hiff, fun hk hmem => (hiff.1 hmem).2 hk⟩

/-- Witness for C4 on the concrete first row
`{id: 1, name: 'Jane'}` with `onConflict: 'id'`. -/
theorem C4_witness :
    excludedAssign "name" ∈
      upsertClauses (objKeys [("id", .num 1), ("name", .str "Jane")]) "id" ∧
    excludedAssign "id" ∉
      upsertClauses (objKeys [("id", .num 1), ("name", .str "Jane")]) "id" :=
  ⟨(C4_upsert_conflict_exclusion [("id", .num 1), ("name", .str "Jane")] "id" "name").1.mpr
      ⟨by decide, by decide⟩,
   (C4_upsert_conflict_exclusion [("id", .num 1), ("name", .str "Jane")] "id" "id").2
      (by decide)⟩

/-! ## Claim C3 — the single-row contract -/

/-- Join reshaping of an empty row sequence is empty. -/
theorem reshapeRows_nil (qb : Builder) : reshapeRows qb [] = [] := by
  cases h : qb.joins <;> simp [reshapeRows, h]

/-- Join reshaping preserves cons structure. -/
theorem reshapeRows_cons (qb : Builder) (r : Row) (rest : List Row) :
    reshapeRows qb (r :: rest) =
      (match qb.joins with | [] => r | j :: _ => reshapeRow j r) :: reshapeRows qb rest := by
  cases h : qb.joins <;> simp [reshapeRows, h]

/-- **C3.** With `single()` set, a select resolving over `rows`:
zero rows give `{data: null, error: {message: 'Row not found'}}`; a first
row `r` gives `{data: r (reshaped when a join is present), error: null}` —
additional rows are ignored, not an error; and `single()` itself forces
the limit to 1. -/
theorem C3_single_row (conn : Conn) (qb : Builder) (rows : List Row) (env : Envelope)
    (hop : qb.operation = some .oselect)
    (hs : qb.singleResult = true)
    (hconn : conn (selectSql qb) qb.params = .ok rows)
    (hok : execSelect conn qb = .ok env) :
    (rows = [] → env.data = .jnull ∧ env.error = .msgObj "Row not found") ∧
    (rows ≠ [] → env.data = headObjOrNull (reshapeRows qb rows) ∧ env.error = .noErr) ∧
    (∀ r rest, rows = r :: rest → qb.joins = [] →
      env.data = .obj r ∧ env.error = .noErr) ∧
    executeQB conn qb = env ∧
    (∀ qb0 : Builder, (Builder.single qb0).limitVal = some 1) := by
  have hexec : executeQB conn qb = env := by
    simp [executeQB, innerExec, hop, hok]
  have hcore : env.data = headObjOrNull (reshapeRows qb rows) ∧
      env.error = (if (reshapeRows qb rows).isEmpty then
        ErrVal.msgObj "Row not found" else .noErr) := by
    rw [execSelect, hconn] at hok
    simp only [hs, Bool.true_and, if_true] at hok
    by_cases hce : qb.countExact
    · rw [if_pos hce] at hok
      cases hc2 : conn (countSql qb) qb.params with
      | error e => rw [hc2] at hok; cases hok
      | ok cres =>
        rw [hc2] at hok
        cases cres with
        | nil => cases hok
        | cons rc crr =>
          have := Except.ok.inj hok
          subst this
          constructor <;> rfl
    · rw [if_neg hce] at hok
      have := Except.ok.inj hok
      subst this
      constructor <;> rfl
  refine ⟨?_, ?_, ?_, hexec, fun _ => rfl⟩
  · rintro rfl
    rw [hcore.1, hcore.2, reshapeRows_nil]
    exact ⟨rfl, rfl⟩
  · intro hne
    obtain ⟨r, rest, rfl⟩ := List.exists_cons_of_ne_nil hne
    refine ⟨hcore.1, ?_⟩
    rw [hcore.2, reshapeRows_cons]
    rfl
  · rintro r rest rfl hj
    have h2 : reshapeRows qb (r :: rest) = r :: rest := by
      simp [reshapeRows, hj]
    rw [hcore.1, hcore.2, h2]
    exact ⟨rfl, rfl⟩

/-- Witness for C3: a connector returning no rows for
`from('users').select('*').eq('id', 999).single()` yields the
`Row not found` envelope. -/
theorem C3_witness :
    (executeQB connNull
        (runChain "users" [.mselect "*" none, .meq "id" (.num 999), .msingle])).data =
      .jnull ∧
    (executeQB connNull
        (runChain "users" [.mselect "*" none, .meq "id" (.num 999), .msingle])).error =
      .msgObj "Row not found" :=
  (C3_single_row connNull
    (runChain "users" [.mselect "*" none, .meq "id" (.num 999), .msingle])
    [] (executeQB connNull
        (runChain "users" [.mselect "*" none, .meq "id" (.num 999), .msingle]))
    rfl rfl rfl rfl).1 rfl

/-! ## Claim C2 — filter/update placeholder alignment -/

/-- A filter call that binds a runtime value. -/
inductive BFilter where
  | beq (column : String) (value : JVal)
  | bneq (column : String) (value : JVal)
  | bgt (column : String) (value : JVal)
  | bgte (column : String) (value : JVal)
  | blt (column : String) (value : JVal)
  | blte (column : String) (value : JVal)
  | bis (column : String) (value : JVal)
  | bnoteq (column : String) (value : JVal)

namespace BFilter

/-- The filtered column. -/
def column : BFilter → String
  | beq c _ | bneq c _ | bgt c _ | bgte c _ | blt c _ | blte c _
  | bis c _ | bnoteq c _ => c

/-- The bound value. -/
def value : BFilter → JVal
  | beq _ v | bneq _ v | bgt _ v | bgte _ v | blt _ v | blte _ v
  | bis _ v | bnoteq _ v => v

/-- The SQL text between the resolved column and the placeholder number
(operator plus the `$` marker, as the source writes it). -/
def opSql : BFilter → String
  | beq _ _ => " = $"
  | bneq _ _ => " != $"
  | bgt _ _ => " > $"
  | bgte _ _ => " >= $"
  | blt _ _ => " < $"
  | blte _ _ => " <= $"
  | bis _ _ => " IS $"
  | bnoteq _ _ => " != $"

/-- Whether the call actually binds its value (`is(col, null)` does not;
every other listed call does). -/
def binds : BFilter → Bool
  | bis _ v => !isNullJ v
  | _ => true

/-- The builder method performing this filter call. -/
def toMethod : BFilter → Method
  | beq c v => .meq c v
  | bneq c v => .mneq c v
  | bgt c v => .mgt c v
  | bgte c v => .mgte c v
  | blt c v => .mlt c v
  | blte c v => .mlte c v
  | bis c v => .mis c v
  | bnoteq c v => .mnot c "eq" v

end BFilter

/-- The WHERE fragments of a run of binding filters, numbered from
placeholder `$(n+1)` on. -/
def whereFragsFrom (n : Nat) : List BFilter → List String
  | [] => []
  | f :: fs =>
    (pgCol f.column ++ f.opSql ++ toString (n + 1)) :: whereFragsFrom (n + 1) fs

/-- The SET fragments for a key list, numbered from placeholder
`$(n+1)` on. -/
def setFragsFrom (n : Nat) : List String → List String
  | [] => []
  | k :: ks => (quoteId k ++ " = $" ++ toString (n + 1)) :: setFragsFrom (n + 1) ks

/-- Applying one binding filter call appends its value and one numbered
WHERE fragment. -/
theorem applyM_bfilter (qb : Builder) (f : BFilter) (hb : f.binds = true) :
    applyM qb f.toMethod =
      { qb with params := qb.params ++ [f.value],
                wheres := qb.wheres ++
                  [pgCol f.column ++ f.opSql ++ toString (qb.params.length + 1)] } := by
  cases f with
  | bis c v =>
    have hv : isNullJ v = false := by simpa [BFilter.binds] using hb
    simp [BFilter.toMethod, applyM, Builder.is, hv, BFilter.column, BFilter.value,
      BFilter.opSql]
  | bnoteq c v =>
    simp [BFilter.toMethod, applyM, Builder.not, BFilter.column, BFilter.value,
      BFilter.opSql]
  | beq c v =>
    simp [BFilter.toMethod, applyM, Builder.eq, BFilter.column, BFilter.value, BFilter.opSql]
  | bneq c v =>
    simp [BFilter.toMethod, applyM, Builder.neq, BFilter.column, BFilter.value, BFilter.opSql]
  | bgt c v =>
    simp [BFilter.toMethod, applyM, Builder.gt, BFilter.column, BFilter.value, BFilter.opSql]
  | bgte c v =>
    simp [BFilter.toMethod, applyM, Builder.gte, BFilter.column, BFilter.value, BFilter.opSql]
  | blt c v =>
    simp [BFilter.toMethod, applyM, Builder.lt, BFilter.column, BFilter.value, BFilter.opSql]
  | blte c v =>
    simp [BFilter.toMethod, applyM, Builder.lte, BFilter.column, BFilter.value, BFilter.opSql]

/-- Running a list of binding filter calls appends the raw values in call
order and the WHERE fragments numbered from the current parameter
count. -/
theorem runFilters_spec : ∀ (fs : List BFilter) (qb : Builder),
    (∀ f ∈ fs, f.binds = true) →
    (fs.map BFilter.toMethod).foldl applyM qb =
      { qb with params := qb.params ++ fs.map BFilter.value,
                wheres := qb.wheres ++ whereFragsFrom qb.params.length fs }
  | [], qb, _ => by simp [whereFragsFrom]
  | f :: fs, qb, hb => by
    have h1 : f.binds = true := hb f (List.mem_cons_self f fs)
    have h2 : ∀ g ∈ fs, g.binds = true := fun g hg => hb g (List.mem_cons_of_mem f hg)
    simp only [List.map_cons, List.foldl_cons, applyM_bfilter qb f h1]
    rw [runFilters_spec fs _ h2]
    simp [whereFragsFrom, List.append_assoc]

/-- The update SET fold: starting from the accumulated filter parameters,
it appends each key's coerced value and numbers its clause by the running
parameter count. -/
theorem updateSetFold_go : ∀ (ks : List String) (ud : Row) (p : List JVal) (cs : List String),
    ks.foldl
      (fun (acc : List JVal × List String) k =>
        let ps := acc.1 ++ [pgVal (getKey ud k)]
        (ps, acc.2 ++ [quoteId k ++ " = $" ++ toString ps.length]))
      (p, cs) =
    (p ++ ks.map (fun k => pgVal (getKey ud k)), cs ++ setFragsFrom p.length ks)
  | [], ud, p, cs => by simp [setFragsFrom]
  | k :: ks, ud, p, cs => by
    simp only [List.foldl_cons]
    rw [updateSetFold_go ks ud (p ++ [pgVal (getKey ud k)])]
    simp [setFragsFrom, List.append_assoc]

/-- With unique keys, looking each key back up in the row yields the
row's values in order. -/
theorem getKey_map_fst : ∀ ud : Row, (ud.map Prod.fst).Nodup →
    (ud.map Prod.fst).map (fun k => pgVal (getKey ud k)) =
      ud.map (fun kv => pgVal kv.2)
  | [], _ => rfl
  | (k, v) :: tl, h => by
    obtain ⟨hk, htl⟩ := List.nodup_cons.1 h
    have hhead : getKey ((k, v) :: tl) k = v := by simp [getKey]
    have htail : ∀ k' ∈ tl.map Prod.fst, getKey ((k, v) :: tl) k' = getKey tl k' := by
      intro k' hk'
      have hne : ¬ k = k' := fun he => hk (he ▸ hk')
      simp [getKey, hne]
    calc (((k, v) :: tl).map Prod.fst).map (fun k0 => pgVal (getKey ((k, v) :: tl) k0))
        = pgVal (getKey ((k, v) :: tl) k) ::
            (tl.map Prod.fst).map (fun k0 => pgVal (getKey ((k, v) :: tl) k0)) := by
          simp
      _ = pgVal v :: (tl.map Prod.fst).map (fun k0 => pgVal (getKey tl k0)) := by
          rw [hhead]
          congr 1
          exact List.map_congr_left (fun k0 hk0 => by rw [htail k0 hk0])
      _ = pgVal v :: tl.map (fun kv => pgVal kv.2) := by rw [getKey_map_fst tl htl]
      _ = ((k, v) :: tl).map (fun kv => pgVal kv.2) := by simp

/-- `whereFragsFrom` yields one fragment per filter. -/
theorem whereFragsFrom_length : ∀ (n : Nat) (fs : List BFilter),
    (whereFragsFrom n fs).length = fs.length
  | _, [] => rfl
  | n, _ :: fs => by simp [whereFragsFrom, whereFragsFrom_length (n + 1) fs]

/-- `setFragsFrom` yields one clause per key. -/
theorem setFragsFrom_length : ∀ (n : Nat) (ks : List String),
    (setFragsFrom n ks).length = ks.length
  | _, [] => rfl
  | n, _ :: ks => by simp [setFragsFrom, setFragsFrom_length (n + 1) ks]

/-- **C2.** For a chain of `N` binding filter calls followed by
`update(vals)` with `M` (distinct) keys: the accumulated WHERE fragments
are numbered `$1..$N` in call order; compiling the update appends the
coerced values in key order so that the final parameter list is exactly
the `N` filter values followed by the `M` update values (`N+M`
parameters), the SET clauses are numbered `$(N+1)..$(N+M)` in key order,
and the compiled statement is the UPDATE over exactly those fragments. -/
theorem C2_update_placeholders (t : String) (fs : List BFilter) (vals : Row) (qb : Builder)
    (hb : ∀ f ∈ fs, f.binds = true)
    (hnd : (vals.map Prod.fst).Nodup)
    (hqb : qb = runChain t (fs.map BFilter.toMethod ++ [.mupdate vals])) :
    qb.updateData = some vals ∧
    qb.wheres = whereFragsFrom 0 fs ∧
    qb.params = fs.map BFilter.value ∧
    updateSetFold qb.params vals =
      (fs.map BFilter.value ++ vals.map (fun kv => pgVal kv.2),
       setFragsFrom fs.length (vals.map Prod.fst)) ∧
    (fs.map BFilter.value ++ vals.map (fun kv => pgVal kv.2)).length =
      fs.length + vals.length ∧
    (whereFragsFrom 0 fs).length = fs.length ∧
    (setFragsFrom fs.length (vals.map Prod.fst)).length = vals.length ∧
    updateSql qb (setFragsFrom fs.length (vals.map Prod.fst)) =
      "UPDATE " ++ quoteId t ++ " SET " ++
        joinComma (setFragsFrom fs.length (vals.map Prod.fst)) ++
        (if fs.isEmpty then "" else " WHERE " ++ joinWith " AND " (whereFragsFrom 0 fs)) := by
  have hchain : runChain t (fs.map BFilter.toMethod ++ [.mupdate vals]) =
      { fromTable t with
          operation := some .oupdate,
          updateData := some vals,
          params := fs.map BFilter.value,
          wheres := whereFragsFrom 0 fs } := by
    rw [runChain, List.foldl_append, runFilters_spec fs (fromTable t) hb]
    simp [fromTable, applyM, Builder.update]
  subst hqb
  rw [hchain]
  refine ⟨rfl, rfl, rfl, ?_, by simp, whereFragsFrom_length 0 fs,
    by simp [setFragsFrom_length], ?_⟩
  · show updateSetFold (fs.map BFilter.value) vals = _
    rw [updateSetFold, objKeys, updateSetFold_go, getKey_map_fst vals hnd]
    simp
  · rw [updateSql, updateBaseSql, whereSql]
    cases fs with
    | nil => simp [whereFragsFrom, fromTable]
    | cons f fs' => simp [whereFragsFrom, fromTable]

/-- Witness for C2: two filters then a two-column update give placeholders
`$1,$2` (filters) and `$3,$4` (SET clauses), with the four bound
parameters aligned. -/
theorem C2_witness :
    (runChain "t" ([BFilter.beq "a" (.num 1), BFilter.bgt "b" (.num 2)].map
        BFilter.toMethod ++ [.mupdate [("x", .num 3), ("y", .num 4)]])).wheres =
      whereFragsFrom 0 [BFilter.beq "a" (.num 1), BFilter.bgt "b" (.num 2)] ∧
    updateSetFold
        (runChain "t" ([BFilter.beq "a" (.num 1), BFilter.bgt "b" (.num 2)].map
          BFilter.toMethod ++ [.mupdate [("x", .num 3), ("y", .num 4)]])).params
        [("x", .num 3), ("y", .num 4)] =
      ([.num 1, .num 2, .num 3, .num 4], ["\"x\" = $3", "\"y\" = $4"]) := by
  have h := C2_update_placeholders "t"
    [BFilter.beq "a" (.num 1), BFilter.bgt "b" (.num 2)]
    [("x", .num 3), ("y", .num 4)] _
    (by intro f hf; fin_cases hf <;> rfl) (by decide) rfl
  exact ⟨h.2.1, by rw [h.2.2.2.1]; rfl⟩

/-! ## Claim C7 — RETURNING is tied to the select-after-mutation flag -/

/-- Whether a method is the `select` call. -/
def isSelM : Method → Bool
  | .mselect _ _ => true
  | _ => false

/-- Whether a method is a mutation entry point. -/
def isMutM : Method → Bool
  | .minsert _ => true
  | .mupdate _ => true
  | .mupsert _ _ => true
  | _ => false

/-- The effect of one chained call on the RETURNING flag, the
mutation-ness of the operation, and the bound table. -/
theorem applyM_effects (qb : Builder) (m : Method) :
    (applyM qb m).returnData = (qb.returnData || (isMutOp qb.operation && isSelM m)) ∧
    isMutOp (applyM qb m).operation = (isMutOp qb.operation || isMutM m) ∧
    (applyM qb m).table = qb.table := by
  cases m with
  | mselect cols co =>
    simp only [applyM, Builder.select]
    by_cases h : isMutOp qb.operation = true
    · rw [if_pos (by simp [h])]
      simp [h, isSelM, isMutM]
    · have h' : isMutOp qb.operation = false := by simpa using h
      rw [if_neg (by simp [h'])]
      cases hj : findJoin cols.data <;> simp [h', isSelM, isMutM] <;> rfl
  | meq c v => simp [applyM, Builder.eq, isSelM, isMutM]
  | mneq c v => simp [applyM, Builder.neq, isSelM, isMutM]
  | mnot c o v =>
    simp only [applyM, Builder.not]
    split
    · simp [isSelM, isMutM]
    · split <;> simp [isSelM, isMutM]
  | mis c v =>
    simp only [applyM, Builder.is]
    split <;> simp [isSelM, isMutM]
  | mgt c v => simp [applyM, Builder.gt, isSelM, isMutM]
  | mgte c v => simp [applyM, Builder.gte, isSelM, isMutM]
  | mlt c v => simp [applyM, Builder.lt, isSelM, isMutM]
  | mlte c v => simp [applyM, Builder.lte, isSelM, isMutM]
  | morder c a => simp [applyM, Builder.order, isSelM, isMutM]
  | mlimit n => simp [applyM, Builder.limit, isSelM, isMutM]
  | msingle => simp [applyM, Builder.single, isSelM, isMutM]
  | minsert rows => simp [applyM, Builder.insert, isSelM, isMutM, isMutOp]
  | mupdate vals => simp [applyM, Builder.update, isSelM, isMutM, isMutOp]
  | mupsert rows co => simp [applyM, Builder.upsert, isSelM, isMutM, isMutOp]

/-- Select-after-mutation detector over the remaining chain, given
whether a mutation entry point has already run. -/
def selAM (mb : Bool) : List Method → Bool
  | [] => false
  | m :: ms => (isSelM m && mb) || selAM (mb || isMutM m) ms

/-- The RETURNING flag after a chain is exactly the select-after-mutation
detector's verdict. -/
theorem foldl_returnData : ∀ (ms : List Method) (qb : Builder),
    (ms.foldl applyM qb).returnData = (qb.returnData || selAM (isMutOp qb.operation) ms)
  | [], qb => by simp [selAM]
  | m :: ms, qb => by
    simp only [List.foldl_cons, selAM]
    rw [foldl_returnData ms (applyM qb m), (applyM_effects qb m).1,
      (applyM_effects qb m).2.1]
    cases qb.returnData <;> cases isMutOp qb.operation <;> cases isSelM m <;> simp

/-- The table never changes along a chain. -/
theorem foldl_table : ∀ (ms : List Method) (qb : Builder),
    (ms.foldl applyM qb).table = qb.table
  | [], _ => rfl
  | m :: ms, qb => by
    simp only [List.foldl_cons]
    rw [foldl_table ms (applyM qb m), (applyM_effects qb m).2.2]

/-- `m` is a `select(...)` call. -/
def IsSelectCall (m : Method) : Prop := ∃ cols co, m = .mselect cols co

/-- `m` is one of the three mutation entry points. -/
def IsMutationCall (m : Method) : Prop :=
  (∃ rows, m = .minsert rows) ∨ (∃ vals, m = .mupdate vals) ∨
    (∃ rows co, m = .mupsert rows co)

/-- Somewhere in the chain, `select()` is called after a mutation entry
point has already run. -/
def SelectAfterMutation (ms : List Method) : Prop :=
  ∃ l m r, ms = l ++ m :: r ∧ IsSelectCall m ∧ ∃ m' ∈ l, IsMutationCall m'

theorem isSelM_iff (m : Method) : isSelM m = true ↔ IsSelectCall m := by
  cases m <;> simp [isSelM, IsSelectCall]

theorem isMutM_iff (m : Method) : isMutM m = true ↔ IsMutationCall m := by
  cases m <;> simp [isMutM, IsMutationCall]

/-- The boolean detector agrees with the declarative
select-after-mutation property. -/
theorem selAM_iff : ∀ (ms : List Method) (mb : Bool),
    selAM mb ms = true ↔
      ∃ l m r, ms = l ++ m :: r ∧ IsSelectCall m ∧
        (mb = true ∨ ∃ m' ∈ l, IsMutationCall m')
  | [], mb => by
    constructor
    · intro h; simp [selAM] at h
    · rintro ⟨l, m, r, h, -, -⟩
      exact absurd h.symm (by simp)
  | m0 :: ms, mb => by
    rw [selAM, Bool.or_eq_true, Bool.and_eq_true]
    constructor
    · rintro (⟨hsel, hmut⟩ | h)
      · exact ⟨[], m0, ms, rfl, (isSelM_iff m0).1 hsel, Or.inl hmut⟩
      · obtain ⟨l', m', r', hms, hsel, hcond⟩ := (selAM_iff ms (mb || isMutM m0)).1 h
        refine ⟨m0 :: l', m', r', by rw [hms]; rfl, hsel, ?_⟩
        rcases hcond with hc | ⟨x, hx, hmx⟩
        · rcases (by simpa using hc : mb = true ∨ isMutM m0 = true) with hm | hm
          · exact Or.inl hm
          · exact Or.inr ⟨m0, List.mem_cons_self m0 l', (isMutM_iff m0).1 hm⟩
        · exact Or.inr ⟨x, List.mem_cons_of_mem m0 hx, hmx⟩
    · rintro ⟨l, m, r, hms, hsel, hcond⟩
      cases l with
      | nil =>
        obtain ⟨rfl, rfl⟩ : m0 = m ∧ ms = r := by
          have := List.cons.inj hms
          exact ⟨this.1, this.2⟩
        rcases hcond with hmb | ⟨x, hx, -⟩
        · exact Or.inl ⟨(isSelM_iff m0).2 hsel, hmb⟩
        · cases hx
      | cons x l' =>
        obtain ⟨rfl, hms'⟩ : m0 = x ∧ ms = l' ++ m :: r := by
          have := List.cons.inj hms
          exact ⟨this.1, this.2⟩
        refine Or.inr ((selAM_iff ms (mb || isMutM m0)).2 ⟨l', m, r, hms', hsel, ?_⟩)
        rcases hcond with hmb | ⟨y, hy, hmy⟩
        · exact Or.inl (by simp [hmb])
        · rcases List.mem_cons.1 hy with rfl | hy'
          · exact Or.inl (by simp [(isMutM_iff _).2 hmy])
          · exact Or.inr ⟨y, hy', hmy⟩

/-- **C7.** After any chain, the RETURNING flag is set iff `select()` was
called after a mutation entry point; a compiled INSERT or UPDATE
statement carries the ` RETURNING *` suffix exactly under that condition,
while a compiled UPSERT statement always carries it and execution of an
upsert yields the affected rows in `data` independently of the flag. -/
theorem C7_returning (t : String) (ms : List Method) :
    ((runChain t ms).returnData = true ↔ SelectAfterMutation ms) ∧
    (∀ keys rows, SelectAfterMutation ms →
        insertSql (runChain t ms) keys rows =
          insertBaseSql t keys rows ++ " RETURNING *") ∧
    (∀ keys rows, ¬ SelectAfterMutation ms →
        insertSql (runChain t ms) keys rows = insertBaseSql t keys rows) ∧
    (∀ setClauses, SelectAfterMutation ms →
        updateSql (runChain t ms) setClauses =
          updateBaseSql (runChain t ms) setClauses ++ " RETURNING *") ∧
    (∀ setClauses, ¬ SelectAfterMutation ms →
        updateSql (runChain t ms) setClauses = updateBaseSql (runChain t ms) setClauses) ∧
    (∀ table keys rows conflict, upsertSql table keys rows conflict =
        upsertBaseSql table keys rows conflict ++ " RETURNING *") ∧
    (∀ conn rows conflict result,
        (runChain t ms).operation = some .oupsert →
        (runChain t ms).insertData = some rows → rows ≠ [] →
        (runChain t ms).upsertConflict = some conflict →
        conn (upsertSql (runChain t ms).table (objKeys (rows.headD [])) rows conflict)
            (buildValues (objKeys (rows.headD [])) rows).1 = .ok result →
        executeQB conn (runChain t ms) =
          ⟨if (runChain t ms).singleResult then headObjOrNull result
            else .arr (result.map .obj), .noErr, .undefC⟩) := by
  have hrd : (runChain t ms).returnData = true ↔ SelectAfterMutation ms := by
    rw [runChain, foldl_returnData ms (fromTable t)]
    show (false || selAM false ms) = true ↔ _
    rw [Bool.false_or, selAM_iff ms false, SelectAfterMutation]
    constructor
    · rintro ⟨l, m, r, hms, hsel, hcond⟩
      rcases hcond with hc | hc
      · cases hc
      · exact ⟨l, m, r, hms, hsel, hc⟩
    · rintro ⟨l, m, r, hms, hsel, hc⟩
      exact ⟨l, m, r, hms, hsel, Or.inr hc⟩
  have htab : (runChain t ms).table = t := foldl_table ms (fromTable t)
  refine ⟨hrd, ?_, ?_, ?_, ?_, fun _ _ _ _ => rfl, ?_⟩
  · intro keys rows h
    rw [insertSql, htab, hrd.2 h, if_pos rfl]
  · intro keys rows h
    have : (runChain t ms).returnData = false := by
      cases hx : (runChain t ms).returnData
      · rfl
      · exact absurd (hrd.1 hx) h
    rw [insertSql, htab, this]
    simp
  · intro setClauses h
    rw [updateSql, hrd.2 h, if_pos rfl]
  · intro setClauses h
    have : (runChain t ms).returnData = false := by
      cases hx : (runChain t ms).returnData
      · rfl
      · exact absurd (hrd.1 hx) h
    rw [updateSql, this]
    simp
  · intro conn rows conflict result hop hins hne hconf hconn
    have hemp : rows.isEmpty = false := by
      cases rows
      · exact absurd rfl hne
      · rfl
    simp only [executeQB, innerExec, hop, execUpsert, hins, hconf, hemp,
      Bool.false_eq_true, if_false, hconn]

/-- Witness for C7: `from('t').insert([{a: 1}]).select()` compiles with a
RETURNING suffix. -/
theorem C7_witness :
    insertSql (runChain "t" [.minsert [[("a", .num 1)]], .mselect "*" none])
        ["a"] [[("a", .num 1)]] =
      insertBaseSql "t" ["a"] [[("a", .num 1)]] ++ " RETURNING *" :=
  (C7_returning "t" [.minsert [[("a", .num 1)]], .mselect "*" none]).2.1
    ["a"] [[("a", .num 1)]]
    ⟨[.minsert [[("a", .num 1)]]], .mselect "*" none, [], rfl,
     ⟨"*", none, rfl⟩,
     ⟨.minsert [[("a", .num 1)]], List.mem_cons_self _ _,
      Or.inl ⟨[[("a", .num 1)]], rfl⟩⟩⟩

/-! ## Claim C5 — embedded-relation parse, LEFT JOIN, and row reshape -/

/-- Looking up a replaced key finds the new value. -/
theorem getKey_replaceKey_self : ∀ (r : Row) (k : String) (v : JVal),
    hasKey r k = true → getKey (replaceKey r k v) k = v
  | [], k, v, h => by simp [hasKey] at h
  | (k', v') :: rest, k, v, h => by
    by_cases he : k' = k
    · subst he; simp [replaceKey, getKey]
    · rw [replaceKey, if_neg he, getKey, if_neg he]
      rw [hasKey, if_neg he] at h
      exact getKey_replaceKey_self rest k v h

/-- JS assignment `row[k] = v` makes `row[k]` read back `v`. -/
theorem getKey_setKey_self (r : Row) (k : String) (v : JVal) :
    getKey (setKey r k v) k = v := by
  rw [setKey]
  by_cases h : hasKey r k = true
  · rw [if_pos h]; exact getKey_replaceKey_self r k v h
  · rw [if_neg h]
    have h' : hasKey r k = false := by simpa using h
    clear h
    induction r with
    | nil => simp [getKey]
    | cons p rest ih =>
      obtain ⟨k', v'⟩ := p
      rw [hasKey] at h'
      by_cases he : k' = k
      · rw [if_pos he] at h'; cases h'
      · rw [if_neg he] at h'
        rw [List.cons_append, getKey, if_neg he]
        exact ih h'

/-- Replacing key `k` does not affect presence of another key. -/
theorem hasKey_replaceKey_ne : ∀ (r : Row) (k k' : String) (v : JVal), k' ≠ k →
    hasKey (replaceKey r k v) k' = hasKey r k'
  | [], _, _, _, _ => rfl
  | (k0, v0) :: rest, k, k', v, hne => by
    by_cases he : k0 = k
    · subst he
      rw [replaceKey, if_pos rfl, hasKey, if_neg (fun hh : k0 = k' => hne hh.symm),
        hasKey, if_neg (fun hh : k0 = k' => hne hh.symm)]
      exact hasKey_replaceKey_ne rest k0 k' v hne
    · rw [replaceKey, if_neg he, hasKey, hasKey]
      by_cases h2 : k0 = k'
      · rw [if_pos h2, if_pos h2]
      · rw [if_neg h2, if_neg h2]
        exact hasKey_replaceKey_ne rest k k' v hne

/-- Presence across concatenation. -/
theorem hasKey_append : ∀ (r s : Row) (k : String),
    hasKey (r ++ s) k = (hasKey r k || hasKey s k)
  | [], s, k => by simp [hasKey]
  | (k0, v0) :: rest, s, k => by
    rw [List.cons_append, hasKey, hasKey]
    by_cases h : k0 = k
    · rw [if_pos h, if_pos h, Bool.true_or]
    · rw [if_neg h, if_neg h, hasKey_append rest s k]

/-- JS assignment to key `k` does not affect presence of another key. -/
theorem hasKey_setKey_ne (r : Row) (k k' : String) (v : JVal) (hne : k' ≠ k) :
    hasKey (setKey r k v) k' = hasKey r k' := by
  rw [setKey]
  by_cases h : hasKey r k = true
  · rw [if_pos h]; exact hasKey_replaceKey_ne r k k' v hne
  · rw [if_neg h, hasKey_append]
    have h1 : hasKey [(k, v)] k' = false := by
      rw [hasKey, if_neg (fun hh : k = k' => hne (hh ▸ rfl))]
      rfl
    rw [h1, Bool.or_false]

/-- Presence after `delete row[j]`. -/
theorem hasKey_delKey : ∀ (r : Row) (j k : String),
    hasKey (delKey r j) k = if k = j then false else hasKey r k
  | [], j, k => by simp [delKey, hasKey]
  | (k0, v0) :: rest, j, k => by
    rw [delKey]
    by_cases h0 : k0 = j
    · rw [if_pos h0, hasKey_delKey rest j k]
      by_cases hkj : k = j
      · rw [if_pos hkj, if_pos hkj]
      · rw [if_neg hkj, if_neg hkj, hasKey,
          if_neg (fun hh : k0 = k => hkj (hh ▸ h0))]
    · rw [if_neg h0, hasKey]
      by_cases h2 : k0 = k
      · rw [if_pos h2,
          if_neg (show ¬ k = j from fun hh => h0 (h2.trans hh)), hasKey, if_pos h2]
      · rw [if_neg h2, hasKey_delKey rest j k]
        by_cases hkj : k = j
        · rw [if_pos hkj, if_pos hkj]
        · rw [if_neg hkj, if_neg hkj, hasKey, if_neg h2]

/-- A count-free, non-single select resolves to the full (reshaped) row
sequence with no error and `count: null`. -/
theorem execSelect_plain (conn : Conn) (qb : Builder) (rows : List Row)
    (hce : qb.countExact = false) (hs : qb.singleResult = false)
    (hconn : conn (selectSql qb) qb.params = .ok rows) :
    execSelect conn qb =
      .ok ⟨.arr ((reshapeRows qb rows).map .obj), .noErr, .nullC⟩ := by
  rw [execSelect, hconn]
  simp [hce, hs]

/-- The join descriptor that `select("*, orders(total, status)")`
records. -/
def ordersJoin : Join :=
  { table := "orders", columns := ["total", "status"], fk := "order_id" }

/-- **C5.** For the select string `"*, orders(total, status)"`: the
builder records the join descriptor with foreign key `order_id`
(singularized target plus `_id`) and outer projection `*`; the compiled
statement LEFT JOINs on `<table>.order_id = orders.id` with the joined
columns aliased `orders_<col>`; and every output row is the input row
with the flat `orders_total`/`orders_status` keys removed and a nested
`orders` object holding those two values. -/
theorem C5_join_reshape (t : String) (conn : Conn) (rows : List Row)
    (hconn : conn (selectSql (runChain t [.mselect "*, orders(total, status)" none])) [] =
      .ok rows) :
    (runChain t [.mselect "*, orders(total, status)" none]).joins = [ordersJoin] ∧
    (runChain t [.mselect "*, orders(total, status)" none]).selectCols = "*" ∧
    (runChain t [.mselect "*, orders(total, status)" none]).operation = some .oselect ∧
    selectSql (runChain t [.mselect "*, orders(total, status)" none]) =
      "SELECT " ++ quoteId t ++
        ".*, \"orders\".\"total\" AS \"orders_total\", \"orders\".\"status\" AS \"orders_status\" FROM " ++
        quoteId t ++ " LEFT JOIN \"orders\" ON " ++ quoteId t ++
        ".\"order_id\" = \"orders\".\"id\"" ∧
    executeQB conn (runChain t [.mselect "*, orders(total, status)" none]) =
      ⟨.arr ((rows.map (reshapeRow ordersJoin)).map .obj), .noErr, .nullC⟩ ∧
    (∀ row, reshapeRow ordersJoin row =
      setKey (delKey (delKey row "orders_total") "orders_status") "orders"
        (.obj [("total", getKey row "orders_total"),
               ("status", getKey row "orders_status")])) ∧
    (∀ row, getKey (reshapeRow ordersJoin row) "orders" =
        .obj [("total", getKey row "orders_total"),
              ("status", getKey row "orders_status")] ∧
      hasKey (reshapeRow ordersJoin row) "orders_total" = false ∧
      hasKey (reshapeRow ordersJoin row) "orders_status" = false) := by
  have hqb : runChain t [.mselect "*, orders(total, status)" none] =
      { table := t, operation := some .oselect, selectCols := "*", countExact := false,
        joins := [ordersJoin], wheres := [], params := [], orderClauses := [],
        limitVal := none, singleResult := false, insertData := none, updateData := none,
        upsertConflict := none, returnData := false } := rfl
  have hreshape : ∀ row, reshapeRow ordersJoin row =
      setKey (delKey (delKey row "orders_total") "orders_status") "orders"
        (.obj [("total", getKey row "orders_total"),
               ("status", getKey row "orders_status")]) := fun row => rfl
  refine ⟨rfl, rfl, rfl, ?_, ?_, hreshape, ?_⟩
  · rw [hqb]
    apply String.ext
    simp [selectSql, selectSqlBase, whereSql, orderSql, limitSql, selectJoinMainCols,
      joinColsSql, joinComma, joinWith, quoteId, ordersJoin, String.data_append]
  · have hx := execSelect_plain conn
      (runChain t [.mselect "*, orders(total, status)" none]) rows rfl rfl hconn
    rw [executeQB,
      show innerExec conn (runChain t [.mselect "*, orders(total, status)" none]) =
        execSelect conn (runChain t [.mselect "*, orders(total, status)" none]) from rfl,
      hx]
    rfl
  · intro row
    rw [hreshape row]
    refine ⟨getKey_setKey_self _ _ _, ?_, ?_⟩
    · rw [hasKey_setKey_ne _ _ _ _ (by decide), hasKey_delKey, hasKey_delKey,
        if_neg (by decide), if_pos rfl]
    · rw [hasKey_setKey_ne _ _ _ _ (by decide), hasKey_delKey, if_pos rfl]

/-- Witness for C5 at a concrete connector returning one flat joined
row. -/
theorem C5_witness :
    executeQB
        (fun _ _ => .ok [[("id", .num 1), ("orders_total", .num 9),
          ("orders_status", .str "ok")]])
        (runChain "users" [.mselect "*, orders(total, status)" none]) =
      ⟨.arr [.obj [("id", .num 1),
        ("orders", .obj [("total", .num 9), ("status", .str "ok")])]],
       .noErr, .nullC⟩ := by
  have h := (C5_join_reshape "users"
    (fun _ _ => .ok [[("id", .num 1), ("orders_total", .num 9),
      ("orders_status", .str "ok")]])
    [[("id", .num 1), ("orders_total", .num 9), ("orders_status", .str "ok")]]
    rfl).2.2.2.2.1
  rw [h]
  rfl

end PgQB
